import Mathlib

/-!
# BookmarkStash: shallow embedding of `bookmark_manager.py`

This file embeds the bookmark manager (a JSON-backed, in-memory list of
`{url, title, tag}` records with add / list / search / delete / tags /
titles / stats commands) as executable Lean definitions and proves the
specified properties about them.

Strings are modelled as sequences of Unicode scalar values; the Python
`str.lower` / `str.strip` helpers are modelled on the ASCII range, which
covers every comparison the program performs on the inputs considered here.
-/

namespace BookmarkStash

/-- ASCII lower-casing of one character; models Python `str.lower`
(restricted to ASCII letters). -/
def lowerChar (c : Char) : Char :=
  if c = 'A' then 'a' else if c = 'B' then 'b' else if c = 'C' then 'c'
  else if c = 'D' then 'd' else if c = 'E' then 'e' else if c = 'F' then 'f'
  else if c = 'G' then 'g' else if c = 'H' then 'h' else if c = 'I' then 'i'
  else if c = 'J' then 'j' else if c = 'K' then 'k' else if c = 'L' then 'l'
  else if c = 'M' then 'm' else if c = 'N' then 'n' else if c = 'O' then 'o'
  else if c = 'P' then 'p' else if c = 'Q' then 'q' else if c = 'R' then 'r'
  else if c = 'S' then 's' else if c = 'T' then 't' else if c = 'U' then 'u'
  else if c = 'V' then 'v' else if c = 'W' then 'w' else if c = 'X' then 'x'
  else if c = 'Y' then 'y' else if c = 'Z' then 'z'
  else c

/-- Models Python `str.lower`. -/
def lower (s : String) : String :=
  ⟨s.data.map lowerChar⟩

/-- ASCII whitespace: the characters removed by Python `str.strip()`. -/
def isSpaceA (c : Char) : Bool :=
  c.toNat = 32 || (9 ≤ c.toNat && c.toNat ≤ 13)

/-- `str.strip()` on a character list. -/
def stripList (l : List Char) : List Char :=
  ((l.dropWhile isSpaceA).reverse.dropWhile isSpaceA).reverse

/-- Models Python `str.strip()`. -/
def strip (s : String) : String :=
  ⟨stripList s.data⟩

/-- Substring test on character lists; models Python `needle in hay`. -/
def containsList (hay needle : List Char) : Bool :=
  hay.tails.any fun t => needle.isPrefixOf t

/-- Substring test on strings. -/
def containsStr (hay needle : String) : Bool :=
  containsList hay.data needle.data

/-! ## Model of `urllib.parse.urlparse` (scheme / netloc extraction)

`_validate_url` only looks at `result.scheme` and `result.netloc`, so it
suffices to model their extraction: `urlsplit` strips leading C0-control
or space characters, removes tab / CR / LF anywhere, splits off a scheme at
the first `:` when the prefix is a valid scheme starting with an ASCII
letter, and, when the remainder starts with `//`, takes the netloc up to
the next `/`, `?` or `#`.  A netloc containing `[` without `]` (or vice
versa) makes `urlparse` raise `ValueError`, which `_validate_url` catches
and turns into `False`. -/

/-- ASCII upper-case letter. -/
def isUpperA (c : Char) : Bool :=
  65 ≤ c.toNat && c.toNat ≤ 90

/-- ASCII lower-case letter. -/
def isLowerA (c : Char) : Bool :=
  97 ≤ c.toNat && c.toNat ≤ 122

/-- ASCII digit. -/
def isDigitA (c : Char) : Bool :=
  48 ≤ c.toNat && c.toNat ≤ 57

/-- ASCII letter. -/
def isAlphaA (c : Char) : Bool :=
  isUpperA c || isLowerA c

/-- `scheme_chars` of `urllib.parse`. -/
def isSchemeChar (c : Char) : Bool :=
  isAlphaA c || isDigitA c || c = '+' || c = '-' || c = '.'

/-- WHATWG C0-control-or-space, lstripped from the URL by `urlsplit`. -/
def isC0OrSpace (c : Char) : Bool :=
  c.toNat ≤ 32

/-- Tab, CR and LF are removed anywhere in the URL by `urlsplit`. -/
def isUnsafeByte (c : Char) : Bool :=
  c = '\t' || c = '\r' || c = '\n'

/-- The cleanup `urlsplit` applies before parsing. -/
def urlClean (url : List Char) : List Char :=
  (url.dropWhile isC0OrSpace).filter fun c => !isUnsafeByte c

/-- Scheme splitting of `urlsplit`: at the first `:`, when the prefix is a
non-empty run of scheme characters starting with an ASCII letter.  Returns
`(scheme, rest)`; the scheme is lower-cased. -/
def splitScheme (u : List Char) : List Char × List Char :=
  let i := u.findIdx (· = ':')
  if 0 < i ∧ i < u.length ∧ (u.take i).all isSchemeChar ∧ isAlphaA (u.headD ' ') then
    ((u.take i).map lowerChar, u.drop (i + 1))
  else ([], u)

/-- Netloc extraction of `urlsplit`: after `//`, up to `/`, `?` or `#`. -/
def netlocOf (rest : List Char) : List Char :=
  match rest with
  | '/' :: '/' :: r => r.takeWhile fun c => !(c = '/' || c = '?' || c = '#')
  | _ => []

/-- Models `BookmarkManager._validate_url`: `urlparse(url)` must produce a
non-empty scheme and a non-empty netloc (`all([result.scheme,
result.netloc])`); an exception from `urlparse` yields `false`. -/
def validate_url (url : String) : Bool :=
  let u := urlClean url.data
  let p := splitScheme u
  let netloc := netlocOf p.2
  if netloc.contains '[' != netloc.contains ']' then false
  else !p.1.isEmpty && !netloc.isEmpty

/-! ## The record store -/

/-- A bookmark record: the dict `{"url": ..., "title": ..., "tag": ...}`. -/
structure Bookmark where
  url : String
  title : String
  tag : String
  deriving DecidableEq, Repr, Inhabited

/-- Models `_find_bookmark_by_url`: index of the first record whose url
matches case-insensitively. -/
def find_bookmark_by_url (bs : List Bookmark) (url : String) : Option Nat :=
  bs.findIdx? fun b => lower b.url == lower url

/-- Models `_find_bookmarks_by_title`: indices of every record whose title
matches case-insensitively, in order. -/
def find_bookmarks_by_title (bs : List Bookmark) (title : String) : List Nat :=
  (List.range bs.length).filter fun i => lower ((bs.getD i default).title) == lower title

/-- Outcome of `add_bookmark`: one constructor per return/print branch. -/
inductive AddResult where
  | invalidUrl
  | duplicateUrl
  | emptyTitle
  | emptyTag
  | saveFailure
  | ok
  deriving DecidableEq, Repr

/-- Models `add_bookmark`.  The `saveOk` flag abstracts whether
`_save_bookmarks` succeeds; on failure the just-appended record is popped
(`self.bookmarks.pop()`). -/
def add_bookmark (bs : List Bookmark) (url title tag : String) (saveOk : Bool) :
    AddResult × List Bookmark :=
  if !validate_url url then (.invalidUrl, bs)
  else if (find_bookmark_by_url bs url).isSome then (.duplicateUrl, bs)
  else if strip title = "" then (.emptyTitle, bs)
  else if strip tag = "" then (.emptyTag, bs)
  else
    let nb : Bookmark := ⟨strip url, strip title, strip tag⟩
    let appended := bs ++ [nb]
    if saveOk then (.ok, appended) else (.saveFailure, appended.dropLast)

/-- Filter selector of `list_bookmarks`. -/
inductive FilterType where
  | title
  | tag
  deriving DecidableEq

/-- Models `list_bookmarks`: the records displayed.  Python truthiness:
the filter applies only when a filter type is present and the filter value
is a non-empty string. -/
def list_bookmarks (bs : List Bookmark) (filterType : Option FilterType)
    (filterValue : Option String) : List Bookmark :=
  if filterType.isSome && (filterValue.getD "") != "" then
    bs.filter fun b =>
      match filterType with
      | some .title => lower b.title == lower (filterValue.getD "")
      | some .tag => lower b.tag == lower (filterValue.getD "")
      | none => false
  else bs

/-- Mode selector of `search_bookmarks`. -/
inductive SearchMode where
  | title
  | tag
  deriving DecidableEq

/-- What `search_bookmarks` returns: `None`, a single url (title mode), or
the collected titles (tag mode). -/
inductive SearchResult where
  | none
  | url (u : String)
  | titles (ts : List String)
  deriving DecidableEq, Repr

/-- Title-mode loop of `search_bookmarks`: the url of the first record whose
lowered title contains the lowered query; `return` short-circuits. -/
def searchTitleLoop (bs : List Bookmark) (ql : String) : Option String :=
  match bs with
  | [] => none
  | b :: rest =>
    if containsStr (lower b.title) ql then some b.url else searchTitleLoop rest ql

/-- Tag-mode loop of `search_bookmarks`: collects the title of every record
whose lowered tag contains the lowered query, in order. -/
def searchTagLoop (bs : List Bookmark) (ql : String) : List String :=
  match bs with
  | [] => []
  | b :: rest =>
    if containsStr (lower b.tag) ql then b.title :: searchTagLoop rest ql
    else searchTagLoop rest ql

/-- Models `search_bookmarks`. -/
def search_bookmarks (bs : List Bookmark) (query : String) (mode : SearchMode) :
    SearchResult :=
  if strip query = "" then .none
  else
    match mode with
    | .title =>
      match searchTitleLoop bs (lower query) with
      | some u => .url u
      | Option.none => .none
    | .tag => .titles (searchTagLoop bs (lower query))

/-- Mode selector of `delete_bookmark`. -/
inductive DeleteMode where
  | url
  | title
  deriving DecidableEq

/-- Outcome of `delete_bookmark`: one constructor per return/print branch. -/
inductive DeleteResult where
  | emptyIdentifier
  | notFound
  | saveFailure
  | ok
  deriving DecidableEq, Repr

/-- Models `delete_bookmark`: collect the records to remove (at most one by
url, all matches by title), rebuild the list excluding records whose url
matches a collected record's url case-insensitively, and restore the
original list when the save fails. -/
def delete_bookmark (bs : List Bookmark) (identifier : String) (mode : DeleteMode)
    (saveOk : Bool) : DeleteResult × List Bookmark :=
  if strip identifier = "" then (.emptyIdentifier, bs)
  else
    let toRemove : List Bookmark :=
      match mode with
      | .url =>
        match find_bookmark_by_url bs identifier with
        | some i => [bs.getD i default]
        | none => []
      | .title => (find_bookmarks_by_title bs identifier).map fun i => bs.getD i default
    if toRemove.isEmpty then (.notFound, bs)
    else
      let newBs := bs.filter fun b => !toRemove.any fun r => lower b.url == lower r.url
      if saveOk then (.ok, newBs) else (.saveFailure, bs)

/-- Strict code-point order on characters (Python string comparison). -/
def charLtb (a b : Char) : Bool :=
  decide (a.toNat < b.toNat)

/-- Strict lexicographic code-point order on character lists. -/
def strLtList : List Char → List Char → Bool
  | _, [] => false
  | [], _ :: _ => true
  | a :: as, b :: bs => charLtb a b || (a == b && strLtList as bs)

/-- Strict string order as Python compares strings. -/
def strLt (a b : String) : Bool :=
  strLtList a.data b.data

/-- Reflexive string order. -/
def strLe (a b : String) : Bool :=
  strLt a b || a == b

/-- Python `sorted` on strings compares by code point; modelled by insertion
sort over the code-point order. -/
def sortedStrings (l : List String) : List String :=
  l.insertionSort fun a b => strLe a b

/-- Models `sorted(set(xs))`: the sorted list of the distinct values. -/
def sortedSet (xs : List String) : List String :=
  sortedStrings xs.dedup

/-- Models `list_tags`; `none` is the "No bookmarks found." outcome. -/
def list_tags (bs : List Bookmark) : Option (List String) :=
  if bs.isEmpty then none
  else some (sortedSet (bs.map (·.tag)))

/-- Models `list_titles`. -/
def list_titles (bs : List Bookmark) : Option (List String) :=
  if bs.isEmpty then none
  else some (sortedSet (bs.map (·.title)))

/-- The statistics printed by `show_stats`. -/
structure Stats where
  total : Nat
  uniqueTags : Nat
  dataFile : String
  tags : List String
  deriving DecidableEq, Repr

/-- Models `show_stats`; `none` is the "No bookmarks found." outcome. -/
def show_stats (dataFile : String) (bs : List Bookmark) : Option Stats :=
  if bs.isEmpty then none
  else
    some ⟨bs.length, (bs.map (·.tag)).dedup.length, dataFile,
      sortedSet (bs.map (·.tag))⟩

/-- The case-insensitive url-uniqueness invariant of the Collection. -/
def urlsNodupCI (bs : List Bookmark) : Prop :=
  (bs.map fun b => lower b.url).Nodup

instance (bs : List Bookmark) : Decidable (urlsNodupCI bs) := by
  unfold urlsNodupCI
  infer_instance

/-! ## Model of the JSON layer

`_save_bookmarks` writes `json.dump(self.bookmarks, f, indent=2,
ensure_ascii=False)`; `_load_bookmarks` reads the file back with
`json.load`.  The encoder below reproduces that exact layout; the decoder
models `json.load` on the array-of-bookmark-objects format the program
persists (keys in the order the program writes them, arbitrary whitespace
between tokens).  Strings are sequences of Unicode scalar values. -/

/-- Hex digit character for a value below 16 (lower case, as Python formats
`\u` escapes). -/
def hexDig (n : Nat) : Char :=
  if n = 0 then '0' else if n = 1 then '1' else if n = 2 then '2'
  else if n = 3 then '3' else if n = 4 then '4' else if n = 5 then '5'
  else if n = 6 then '6' else if n = 7 then '7' else if n = 8 then '8'
  else if n = 9 then '9' else if n = 10 then 'a' else if n = 11 then 'b'
  else if n = 12 then 'c' else if n = 13 then 'd' else if n = 14 then 'e'
  else 'f'

/-- Numeric value of a hex digit accepted by `json.load`. -/
def hexVal (c : Char) : Option Nat :=
  if 48 ≤ c.toNat ∧ c.toNat ≤ 57 then some (c.toNat - 48)
  else if 97 ≤ c.toNat ∧ c.toNat ≤ 102 then some (c.toNat - 87)
  else if 65 ≤ c.toNat ∧ c.toNat ≤ 70 then some (c.toNat - 55)
  else none

/-- JSON escaping of one character by Python's encoder with
`ensure_ascii=False`: `"` and `\` are escaped, control characters get the
five short escapes or `\u00XX`, everything else (non-ASCII included) passes
through verbatim. -/
def encChar (c : Char) : List Char :=
  if c = '"' then ['\\', '"']
  else if c = '\\' then ['\\', '\\']
  else if c.toNat = 8 then ['\\', 'b']
  else if c.toNat = 12 then ['\\', 'f']
  else if c = '\n' then ['\\', 'n']
  else if c.toNat = 13 then ['\\', 'r']
  else if c = '\t' then ['\\', 't']
  else if c.toNat < 32 then
    ['\\', 'u', '0', '0', hexDig (c.toNat / 16), hexDig (c.toNat % 16)]
  else [c]

/-- JSON encoding of a string body. -/
def encStr (s : List Char) : List Char :=
  (s.map encChar).flatten

/-- One record as `json.dump` with `indent=2` lays it out inside the
array. -/
def encRecord (b : Bookmark) : List Char :=
  "  \x7b\n    \"url\": \"".data ++ encStr b.url.data ++
  "\",\n    \"title\": \"".data ++ encStr b.title.data ++
  "\",\n    \"tag\": \"".data ++ encStr b.tag.data ++ "\"\n  \x7d".data

/-- Concatenation with a separator between items. -/
def joinSep (sep : List Char) : List (List Char) → List Char
  | [] => []
  | [x] => x
  | x :: xs => x ++ sep ++ joinSep sep xs

/-- Models the file text written by `_save_bookmarks`:
`json.dump(self.bookmarks, f, indent=2, ensure_ascii=False)`. -/
def dump (bs : List Bookmark) : String :=
  match bs with
  | [] => "[]"
  | _ => ⟨"[\n".data ++ joinSep ",\n".data (bs.map encRecord) ++ "\n]".data⟩

/-- JSON inter-token whitespace. -/
def isJsonWs (c : Char) : Bool :=
  c = ' ' || c = '\t' || c = '\n' || c = '\r'

/-- Skip JSON whitespace. -/
def skipWs (s : List Char) : List Char :=
  s.dropWhile isJsonWs

/-- Body of a JSON string literal up to its closing quote, as `json.load`
scans it: the escapes `\" \\ \/ \b \f \n \r \t \uXXXX` are decoded and
unescaped control characters are rejected (strict mode).  Returns the
decoded characters and the input after the closing quote. -/
def scanString : List Char → Option (List Char × List Char)
  | [] => none
  | c :: rest =>
    if c = '"' then some ([], rest)
    else if c = '\\' then
      match rest with
      | [] => none
      | e :: r =>
        if e = '"' then (scanString r).map fun p => ('"' :: p.1, p.2)
        else if e = '\\' then (scanString r).map fun p => ('\\' :: p.1, p.2)
        else if e = '/' then (scanString r).map fun p => ('/' :: p.1, p.2)
        else if e = 'b' then (scanString r).map fun p => (Char.ofNat 8 :: p.1, p.2)
        else if e = 'f' then (scanString r).map fun p => (Char.ofNat 12 :: p.1, p.2)
        else if e = 'n' then (scanString r).map fun p => ('\n' :: p.1, p.2)
        else if e = 'r' then (scanString r).map fun p => (Char.ofNat 13 :: p.1, p.2)
        else if e = 't' then (scanString r).map fun p => ('\t' :: p.1, p.2)
        else if e = 'u' then
          match r with
          | h1 :: h2 :: h3 :: h4 :: r2 =>
            match hexVal h1, hexVal h2, hexVal h3, hexVal h4 with
            | some a, some b, some c2, some d =>
              (scanString r2).map fun p =>
                (Char.ofNat (4096 * a + 256 * b + 16 * c2 + d) :: p.1, p.2)
            | _, _, _, _ => none
          | _ => none
        else none
    else if c.toNat < 32 then none
    else (scanString rest).map fun p => (c :: p.1, p.2)

/-- Parse one string literal: expects an opening quote. -/
def parseString (s : List Char) : Option (String × List Char) :=
  match s with
  | '"' :: rest => (scanString rest).map fun p => (⟨p.1⟩, p.2)
  | _ => none

/-- Expect one specific character. -/
def expectChar (c : Char) (s : List Char) : Option (List Char) :=
  match s with
  | x :: rest => if x = c then some rest else none
  | [] => none

/-- Parse `"key": "value"`, with whitespace allowed around tokens. -/
def parseField (key : String) (s : List Char) : Option (String × List Char) := do
  let p1 ← parseString (skipWs s)
  if p1.1 = key then
    let s2 ← expectChar ':' (skipWs p1.2)
    parseString (skipWs s2)
  else none

/-- Parse one bookmark object `{"url": ..., "title": ..., "tag": ...}`. -/
def parseRecord (s : List Char) : Option (Bookmark × List Char) := do
  let s1 ← expectChar '{' (skipWs s)
  let pu ← parseField "url" s1
  let s3 ← expectChar ',' (skipWs pu.2)
  let pt ← parseField "title" s3
  let s5 ← expectChar ',' (skipWs pt.2)
  let pg ← parseField "tag" s5
  let s7 ← expectChar '}' (skipWs pg.2)
  some (⟨pu.1, pt.1, pg.1⟩, s7)

/-- Parse the records of a non-empty array: one record, then `',' records`
or the closing `]`.  The fuel bounds the number of records; `load` passes
the remaining input length plus one, which suffices since every record
consumes at least one character. -/
def parseRecords : Nat → List Char → Option (List Bookmark × List Char)
  | 0, _ => none
  | fuel + 1, s => do
    let pb ← parseRecord s
    match skipWs pb.2 with
    | ',' :: s2 => (parseRecords fuel s2).map fun p => (pb.1 :: p.1, p.2)
    | ']' :: s2 => some ([pb.1], s2)
    | _ => none

/-- Models `json.load` on the program's save format; `none` models
`json.JSONDecodeError` (including trailing garbage). -/
def load (text : String) : Option (List Bookmark) :=
  match skipWs text.data with
  | '[' :: rest =>
    match skipWs rest with
    | ']' :: tail => if skipWs tail = [] then some [] else none
    | _ => do
      let pr ← parseRecords (rest.length + 1) rest
      if skipWs pr.2 = [] then some pr.1 else none
  | _ => none

/-- Models `_load_bookmarks`: `none` contents means the file is absent
(fresh empty Collection); unparsable contents degrade to an empty
Collection with a diagnostic. -/
def load_bookmarks (contents : Option String) : List Bookmark :=
  match contents with
  | none => []
  | some text => (load text).getD []

/-! ## Model of the command-line layer -/

/-- The module-level default path:
`os.path.join(os.path.expanduser("~"), ".bookmarks.json")`. -/
def bookmarks_path (home : String) : String :=
  home ++ "/.bookmarks.json"

/-- A parsed sub-command, as `create_parser` produces it. -/
inductive Command where
  | add (url title tag : String)
  | list (title tag : Option String)
  | search (query : String) (byTag : Bool)
  | delete (url title : Option String)
  | tags
  | titles
  | stats

/-- Parsed command-line arguments: the sub-command (absent prints help) and
the `--file` option. -/
structure Args where
  command : Option Command
  file : String

/-- The `--file` default declared by `create_parser`. -/
def create_parser_file_default : String :=
  "bookmarks.json"

/-- Models argparse filling `args.file`. -/
def parse_file_option (provided : Option String) : String :=
  provided.getD create_parser_file_default

/-- Manager state: the backing path and the loaded Collection. -/
structure ManagerState where
  data_file : String
  bookmarks : List Bookmark

/-- Models `BookmarkManager.__init__` given the contents of the backing
file (`none` when absent). -/
def manager_init (data_file : String) (contents : Option String) : ManagerState :=
  ⟨data_file, load_bookmarks contents⟩

/-- The value each command renders. -/
inductive CmdOutput where
  | helpText
  | noOutput
  | addRes (r : AddResult)
  | listed (shown : List Bookmark)
  | searched (r : SearchResult)
  | deleted (r : DeleteResult)
  | tagList (l : Option (List String))
  | titleList (l : Option (List String))
  | statsOut (s : Option Stats)

/-- Effect of one command execution: the resulting Collection, the path
written to when a save was attempted, and the rendered output. -/
structure ExecResult where
  bookmarks : List Bookmark
  savedTo : Option String
  output : CmdOutput

/-- Models the command dispatch of `main` on an initialized manager.
A save is attempted exactly when `add_bookmark` / `delete_bookmark` reach
their `_save_bookmarks` call, i.e. when they return `ok` or `saveFailure`;
the `if x:` truthiness checks of `main` on optional string arguments are
modelled as the value being present and non-empty. -/
def execute (m : ManagerState) (cmd : Option Command) (saveOk : Bool) : ExecResult :=
  match cmd with
  | none => ⟨m.bookmarks, none, .helpText⟩
  | some (.add u t g) =>
    let r := add_bookmark m.bookmarks u t g saveOk
    ⟨r.2, if r.1 = .ok ∨ r.1 = .saveFailure then some m.data_file else none, .addRes r.1⟩
  | some (.list t g) =>
    let shown :=
      if t.getD "" ≠ "" then list_bookmarks m.bookmarks (some .title) t
      else if g.getD "" ≠ "" then list_bookmarks m.bookmarks (some .tag) g
      else list_bookmarks m.bookmarks none none
    ⟨m.bookmarks, none, .listed shown⟩
  | some (.search q byTag) =>
    ⟨m.bookmarks, none,
      .searched (search_bookmarks m.bookmarks q (if byTag then .tag else .title))⟩
  | some (.delete urlOpt titleOpt) =>
    if urlOpt.getD "" ≠ "" then
      let r := delete_bookmark m.bookmarks (urlOpt.getD "") .url saveOk
      ⟨r.2, if r.1 = .ok ∨ r.1 = .saveFailure then some m.data_file else none, .deleted r.1⟩
    else if titleOpt.getD "" ≠ "" then
      let r := delete_bookmark m.bookmarks (titleOpt.getD "") .title saveOk
      ⟨r.2, if r.1 = .ok ∨ r.1 = .saveFailure then some m.data_file else none, .deleted r.1⟩
    else ⟨m.bookmarks, none, .noOutput⟩
  | some .tags => ⟨m.bookmarks, none, .tagList (list_tags m.bookmarks)⟩
  | some .titles => ⟨m.bookmarks, none, .titleList (list_titles m.bookmarks)⟩
  | some .stats => ⟨m.bookmarks, none, .statsOut (show_stats m.data_file m.bookmarks)⟩

/-- The commands that can mutate the Collection or write the file. -/
def isMutation : Option Command → Bool
  | some (.add _ _ _) => true
  | some (.delete _ _) => true
  | _ => false

/-- Models `main`: parse arguments, construct the manager — the source
passes the module-level `bookmarks_path`, never `args.file` — and dispatch.
`fs` maps a path to that file's contents (`none` when absent). -/
def main_run (home : String) (args : Args) (fs : String → Option String)
    (saveOk : Bool) : ManagerState × ExecResult :=
  let m := manager_init (bookmarks_path home) (fs (bookmarks_path home))
  (m, execute m args.command saveOk)

/-! ## Helper lemmas -/

theorem charToNat_inj {a b : Char} (h : a.toNat = b.toNat) : a = b := by
  apply Char.ext
  apply UInt32.ext
  exact h

theorem findIdx?_spec {α : Type} [Inhabited α] (p : α → Bool) :
    ∀ (l : List α) (i j : Nat), List.findIdx? p l i = some j →
      i ≤ j ∧ j - i < l.length ∧ p (l.getD (j - i) default) = true := by
  intro l
  induction l with
  | nil => simp [List.findIdx?_nil]
  | cons x xs ih =>
    intro i j h
    rw [List.findIdx?_cons] at h
    by_cases hp : p x = true
    · rw [if_pos hp] at h
      cases h
      simpa using hp
    · rw [if_neg hp] at h
      obtain ⟨h1, h2, h3⟩ := ih (i + 1) j h
      refine ⟨by omega, by simp only [List.length_cons]; omega, ?_⟩
      have hji : j - i = (j - (i + 1)) + 1 := by omega
      rw [hji]
      simpa using h3

theorem findIdx?_isSome_of_mem {α : Type} (p : α → Bool) :
    ∀ (l : List α) (i : Nat), (∃ a ∈ l, p a = true) →
      (List.findIdx? p l i).isSome = true := by
  intro l
  induction l with
  | nil => simp
  | cons x xs ih =>
    intro i h
    rw [List.findIdx?_cons]
    by_cases hp : p x = true
    · rw [if_pos hp]; rfl
    · rw [if_neg hp]
      apply ih
      rcases h with ⟨a, ha, hpa⟩
      rcases List.mem_cons.mp ha with rfl | ha2
      · exact absurd hpa hp
      · exact ⟨a, ha2, hpa⟩

theorem findIdx?_eq_none_of_all {α : Type} (p : α → Bool) :
    ∀ (l : List α) (i : Nat), (∀ a ∈ l, p a = false) →
      List.findIdx? p l i = none := by
  intro l
  induction l with
  | nil => simp
  | cons x xs ih =>
    intro i h
    rw [List.findIdx?_cons]
    rw [if_neg (by simp [h x (by simp)])]
    exact ih _ fun a ha => h a (List.mem_cons_of_mem _ ha)

theorem searchTitleLoop_first (pre post : List Bookmark) (b : Bookmark) (ql : String)
    (hpre : ∀ b2 ∈ pre, containsStr (lower b2.title) ql = false)
    (hb : containsStr (lower b.title) ql = true) :
    searchTitleLoop (pre ++ b :: post) ql = some b.url := by
  induction pre with
  | nil => simp [searchTitleLoop, hb]
  | cons p ps ih =>
    have hp := hpre p (by simp)
    simp only [List.cons_append, searchTitleLoop, hp]
    simp only [Bool.false_eq_true, if_false]
    exact ih fun x hx => hpre x (List.mem_cons_of_mem _ hx)

theorem searchTagLoop_eq (bs : List Bookmark) (ql : String) :
    searchTagLoop bs ql =
      (bs.filter fun b => containsStr (lower b.tag) ql).map Bookmark.title := by
  induction bs with
  | nil => rfl
  | cons b t ih =>
    by_cases h : containsStr (lower b.tag) ql = true
    · simp [searchTagLoop, h, List.filter_cons_of_pos, ih]
    · simp only [Bool.not_eq_true] at h
      simp [searchTagLoop, h, List.filter_cons_of_neg, ih]

theorem count_url_filter_eq_one :
    ∀ (bs : List Bookmark) (v : String),
      (bs.map fun b => lower b.url).Nodup → (∃ b ∈ bs, lower b.url = v) →
      (bs.filter fun b => lower b.url == v).length = 1 := by
  intro bs
  induction bs with
  | nil => simp
  | cons hd tl ih =>
    intro v hnd hex
    simp only [List.map_cons, List.nodup_cons] at hnd
    by_cases h : lower hd.url = v
    · rw [List.filter_cons_of_pos (by simp [h])]
      have htl : tl.filter (fun b => lower b.url == v) = [] := by
        rw [List.filter_eq_nil_iff]
        intro a ha
        simp only [beq_iff_eq]
        intro hav
        apply hnd.1
        rw [h, ← hav]
        exact List.mem_map_of_mem _ ha
      simp [htl]
    · rw [List.filter_cons_of_neg (by simp [h])]
      apply ih v hnd.2
      rcases hex with ⟨b, hb, hbv⟩
      rcases List.mem_cons.mp hb with rfl | hb2
      · exact absurd hbv h
      · exact ⟨b, hb2, hbv⟩

/-! ## Claims -/

/-- Claim C2: with a failing save, `add_bookmark` and `delete_bookmark`
report failure and leave the in-memory Collection exactly as it was before
the call (same records, same order).  Proved for every input, not only for
valid mutations. -/
theorem save_failure_restores_collection :
    ∀ (bs : List Bookmark) (url title tag identifier : String) (mode : DeleteMode),
      (add_bookmark bs url title tag false).2 = bs ∧
      (add_bookmark bs url title tag false).1 ≠ AddResult.ok ∧
      (delete_bookmark bs identifier mode false).2 = bs ∧
      (delete_bookmark bs identifier mode false).1 ≠ DeleteResult.ok := by
  intro bs url title tag identifier mode
  refine ⟨?_, ?_, ?_, ?_⟩
  · unfold add_bookmark
    split_ifs <;> simp_all [List.dropLast_concat]
  · unfold add_bookmark
    split_ifs <;> simp_all
  · cases mode <;>
      (unfold delete_bookmark; split_ifs <;> ((try simp_all); try (split <;> simp)))
  · cases mode <;>
      (unfold delete_bookmark; split_ifs <;> ((try simp_all); try (split <;> simp)))

/-- Claim C4 (amended: the query must be non-empty after trimming, since
`search_bookmarks` rejects whitespace-only queries): in title mode, search
returns the url of the first record in insertion order whose title contains
the query case-insensitively, regardless of any later matching records. -/
theorem search_title_first_match :
    ∀ (pre post : List Bookmark) (b : Bookmark) (query : String),
      strip query ≠ "" →
      (∀ b2 ∈ pre, containsStr (lower b2.title) (lower query) = false) →
      containsStr (lower b.title) (lower query) = true →
      search_bookmarks (pre ++ b :: post) query SearchMode.title =
        SearchResult.url b.url := by
  intro pre post b query hq hpre hb
  unfold search_bookmarks
  rw [if_neg hq, searchTitleLoop_first pre post b (lower query) hpre hb]

/-- Witness for C4: with two matching titles, only the first record's url is
returned. -/
theorem search_title_first_match_witness :
    search_bookmarks [⟨"u0", "other", "g"⟩, ⟨"u1", "Example A", "g"⟩,
      ⟨"u2", "Example B", "g"⟩] "Exam" SearchMode.title = SearchResult.url "u1" :=
  search_title_first_match [⟨"u0", "other", "g"⟩] [⟨"u2", "Example B", "g"⟩]
    ⟨"u1", "Example A", "g"⟩ "Exam" (by decide) (by decide) (by decide)

/-- Counterexample to C4 as stated: the query `" "` is non-empty and the
title `"a b"` contains it, but the code rejects the query (its trimmed form
is empty) and returns nothing instead of the matching record's url. -/
theorem search_title_blank_query_counterexample :
    (" " : String) ≠ "" ∧
    containsStr (lower "a b") (lower " ") = true ∧
    search_bookmarks [⟨"u", "a b", "g"⟩] " " SearchMode.title = SearchResult.none ∧
    search_bookmarks [⟨"u", "a b", "g"⟩] " " SearchMode.title ≠ SearchResult.url "u" := by
  decide

/-- Claim C5 (amended: the query must be non-empty after trimming, since
`search_bookmarks` rejects whitespace-only queries): in tag mode, search
returns the titles of all records whose tag contains the query
case-insensitively, in insertion order. -/
theorem search_tag_collects_all :
    ∀ (bs : List Bookmark) (query : String),
      strip query ≠ "" →
      search_bookmarks bs query SearchMode.tag =
        SearchResult.titles
          ((bs.filter fun b => containsStr (lower b.tag) (lower query)).map
            Bookmark.title) ∧
      ∀ b ∈ bs, containsStr (lower b.tag) (lower query) = true →
        Bookmark.title b ∈
          (bs.filter fun b => containsStr (lower b.tag) (lower query)).map
            Bookmark.title := by
  intro bs query hq
  constructor
  · unfold search_bookmarks
    rw [if_neg hq, searchTagLoop_eq]
  · intro b hb hmatch
    exact List.mem_map_of_mem _ (List.mem_filter.mpr ⟨hb, hmatch⟩)

/-- Witness for C5: tags `"Development"` and `"development tools"` both match
query `"dev"`, and both titles are returned. -/
theorem search_tag_collects_all_witness :
    search_bookmarks [⟨"u1", "T1", "Development"⟩, ⟨"u2", "T2", "development tools"⟩]
      "dev" SearchMode.tag = SearchResult.titles ["T1", "T2"] := by
  have h := (search_tag_collects_all
    [⟨"u1", "T1", "Development"⟩, ⟨"u2", "T2", "development tools"⟩] "dev"
    (by decide)).1
  rw [h]
  decide

/-- Counterexample to C5 as stated: the query `" "` is non-empty and the tag
`"a b"` contains it, but the code rejects the query (its trimmed form is
empty) and returns nothing instead of the matching title. -/
theorem search_tag_blank_query_counterexample :
    (" " : String) ≠ "" ∧
    containsStr (lower "a b") (lower " ") = true ∧
    search_bookmarks [⟨"u", "T", "a b"⟩] " " SearchMode.tag = SearchResult.none ∧
    search_bookmarks [⟨"u", "T", "a b"⟩] " " SearchMode.tag ≠
      SearchResult.titles ["T"] := by
  decide

/-- Claim C6 (amended: the identifier must additionally be non-empty after
trimming, since `delete_bookmark` rejects whitespace-only identifiers before
looking for a match): on a Collection with case-insensitively distinct urls,
delete in url mode removes exactly the one matching record and succeeds,
and reports not-found, leaving the Collection unchanged, when nothing
matches. -/
theorem delete_url_exact :
    ∀ (bs : List Bookmark) (identifier : String),
      urlsNodupCI bs → strip identifier ≠ "" →
      ((∃ b ∈ bs, lower b.url = lower identifier) →
        delete_bookmark bs identifier DeleteMode.url true =
          (DeleteResult.ok, bs.filter fun b => !(lower b.url == lower identifier)) ∧
        (bs.filter fun b => lower b.url == lower identifier).length = 1) ∧
      ((∀ b ∈ bs, lower b.url ≠ lower identifier) →
        delete_bookmark bs identifier DeleteMode.url true = (DeleteResult.notFound, bs)) := by
  intro bs identifier hnd hid
  constructor
  · intro hex
    have hs : (find_bookmark_by_url bs identifier).isSome = true := by
      apply findIdx?_isSome_of_mem
      rcases hex with ⟨b, hb, hbv⟩
      exact ⟨b, hb, by simp [hbv]⟩
    obtain ⟨j, hj⟩ := Option.isSome_iff_exists.mp hs
    have hspec := findIdx?_spec _ bs 0 j hj
    have hr : lower (bs.getD j default).url = lower identifier := by
      have := hspec.2.2
      simpa using this
    simp only [List.getD, List.get?_eq_getElem?] at hr
    constructor
    · unfold delete_bookmark
      rw [if_neg hid]
      unfold find_bookmark_by_url at hj
      simp only [find_bookmark_by_url, hj]
      rw [if_neg (by simp)]
      rw [if_pos (by trivial)]
      congr 1
      apply List.filter_congr
      intro b _
      simp [hr]
    · exact count_url_filter_eq_one bs (lower identifier) hnd hex
  · intro hall
    have hn : find_bookmark_by_url bs identifier = none := by
      apply findIdx?_eq_none_of_all
      intro b hb
      simp [hall b hb]
    unfold delete_bookmark
    rw [if_neg hid]
    simp only [hn]
    rw [if_pos (by simp [List.isEmpty])]

/-- Witness for C6: deleting by a different-case url removes exactly the one
record. -/
theorem delete_url_exact_witness :
    delete_bookmark [⟨"http://a.com", "T", "g"⟩] "HTTP://A.COM" DeleteMode.url true =
      (DeleteResult.ok, []) ∧
    (([⟨"http://a.com", "T", "g"⟩] : List Bookmark).filter
      fun b => lower b.url == lower "HTTP://A.COM").length = 1 := by
  have h := (delete_url_exact [⟨"http://a.com", "T", "g"⟩] "HTTP://A.COM"
    (by decide) (by decide)).1 ⟨⟨"http://a.com", "T", "g"⟩, by decide, by decide⟩
  exact ⟨h.1.trans (by decide), h.2⟩

/-- Counterexample to C6 as stated: the Collection `[{url: " "}]` satisfies
the uniqueness invariant and the identifier `" "` matches its record's url
case-insensitively, yet delete rejects the identifier as empty and removes
nothing. -/
theorem delete_url_blank_identifier_counterexample :
    urlsNodupCI [⟨" ", "t", "g"⟩] ∧
    lower (Bookmark.mk " " "t" "g").url = lower " " ∧
    delete_bookmark [⟨" ", "t", "g"⟩] " " DeleteMode.url true =
      (DeleteResult.emptyIdentifier, [⟨" ", "t", "g"⟩]) ∧
    (delete_bookmark [⟨" ", "t", "g"⟩] " " DeleteMode.url true).1 ≠
      DeleteResult.ok := by
  decide

theorem strLtList_trichotomy : ∀ (a b : List Char),
    strLtList a b = true ∨ strLtList b a = true ∨ a = b := by
  intro a
  induction a with
  | nil =>
    intro b
    cases b with
    | nil => right; right; rfl
    | cons c cs => left; rfl
  | cons x xs ih =>
    intro b
    cases b with
    | nil => right; left; rfl
    | cons y ys =>
      rcases Nat.lt_trichotomy x.toNat y.toNat with h | h | h
      · left
        simp [strLtList, charLtb, h]
      · have hxy : x = y := charToNat_inj h
        subst hxy
        rcases ih ys with h2 | h2 | h2
        · left
          simp [strLtList, h2]
        · right; left
          simp [strLtList, h2]
        · right; right
          rw [h2]
      · right; left
        simp [strLtList, charLtb, h]

theorem strLtList_trans : ∀ (a b c : List Char),
    strLtList a b = true → strLtList b c = true → strLtList a c = true := by
  intro a
  induction a with
  | nil =>
    intro b c hab hbc
    cases c with
    | nil => cases b <;> simp [strLtList] at hab hbc
    | cons z zs => rfl
  | cons x xs ih =>
    intro b c hab hbc
    cases b with
    | nil => simp [strLtList] at hab
    | cons y ys =>
      cases c with
      | nil => simp [strLtList] at hbc
      | cons z zs =>
        simp only [strLtList, Bool.or_eq_true, Bool.and_eq_true, charLtb,
          decide_eq_true_eq, beq_iff_eq] at hab hbc ⊢
        rcases hab with h1 | ⟨hxy, h1⟩
        · rcases hbc with h2 | ⟨hyz, h2⟩
          · exact Or.inl (Nat.lt_trans h1 h2)
          · subst hyz
            exact Or.inl h1
        · subst hxy
          rcases hbc with h2 | ⟨hyz, h2⟩
          · exact Or.inl h2
          · subst hyz
            exact Or.inr ⟨rfl, ih _ _ h1 h2⟩

instance : IsTotal String fun a b => strLe a b = true := by
  constructor
  intro a b
  unfold strLe strLt
  rcases strLtList_trichotomy a.data b.data with h | h | h
  · left
    simp [h]
  · right
    simp [h]
  · have hab : a = b := by
      cases a
      cases b
      simp only at h
      rw [h]
    left
    simp [hab]

instance : IsTrans String fun a b => strLe a b = true := by
  constructor
  intro a b c hab hbc
  unfold strLe strLt at *
  simp only [Bool.or_eq_true, beq_iff_eq] at hab hbc ⊢
  rcases hab with h1 | h1
  · rcases hbc with h2 | h2
    · exact Or.inl (strLtList_trans _ _ _ h1 h2)
    · subst h2
      exact Or.inl h1
  · subst h1
    exact hbc

/-- Claim C8: for every non-empty Collection, `list_tags` returns the
distinct tag values sorted case-sensitively by code point (so tags differing
only in letter case stay distinct), and over tags `["b", "a", "B"]` the
result is `["B", "a", "b"]`. -/
theorem list_tags_sorted_distinct :
    (∀ bs : List Bookmark, bs ≠ [] →
      ∃ L, list_tags bs = some L ∧
        L.Pairwise (fun a b => strLt a b = true) ∧
        ∀ s, s ∈ L ↔ ∃ b ∈ bs, b.tag = s) ∧
    list_tags [⟨"u1", "t", "b"⟩, ⟨"u2", "t", "a"⟩, ⟨"u3", "t", "B"⟩] =
      some ["B", "a", "b"] := by
  constructor
  · intro bs hbs
    refine ⟨sortedSet (bs.map fun b => b.tag), ?_, ?_, ?_⟩
    · unfold list_tags
      rw [if_neg (by simp [List.isEmpty_iff, hbs])]
    · have hperm :=
        List.perm_insertionSort (fun a b => strLe a b = true) (bs.map fun b => b.tag).dedup
      have hsorted : List.Sorted (fun a b => strLe a b = true)
          (sortedSet (bs.map fun b => b.tag)) :=
        List.sorted_insertionSort _ _
      have hnodup : (sortedSet (bs.map fun b => b.tag)).Nodup :=
        hperm.nodup_iff.mpr (List.nodup_dedup _)
      refine (hsorted.and hnodup).imp ?_
      rintro a b ⟨hle, hne⟩
      unfold strLe at hle
      simp only [Bool.or_eq_true, beq_iff_eq] at hle
      rcases hle with h | h
      · exact h
      · exact absurd h hne
    · intro s
      unfold sortedSet sortedStrings
      rw [(List.perm_insertionSort _ _).mem_iff, List.mem_dedup, List.mem_map]
  · decide

/-- Witness for C8: application to a concrete non-empty Collection. -/
theorem list_tags_sorted_distinct_witness :
    ∃ L, list_tags [⟨"u", "t", "g"⟩] = some L ∧
      L.Pairwise (fun a b => strLt a b = true) ∧
      ∀ s, s ∈ L ↔ ∃ b ∈ ([⟨"u", "t", "g"⟩] : List Bookmark), b.tag = s :=
  list_tags_sorted_distinct.1 [⟨"u", "t", "g"⟩] (by decide)

/-- Claim C9: whatever value the `--file` option carries, `main` constructs
the active manager with the module-level home-directory dot-file path, so
the flag influences neither the constructed manager nor which path any
command reads or writes. -/
theorem file_flag_never_used :
    ∀ (home : String) (cmd : Option Command) (f1 f2 : Option String)
      (fs : String → Option String) (saveOk : Bool),
      main_run home ⟨cmd, parse_file_option f1⟩ fs saveOk =
        main_run home ⟨cmd, parse_file_option f2⟩ fs saveOk ∧
      (main_run home ⟨cmd, parse_file_option f1⟩ fs saveOk).1.data_file =
        bookmarks_path home ∧
      ∀ p, (main_run home ⟨cmd, parse_file_option f1⟩ fs saveOk).2.savedTo = some p →
        p = bookmarks_path home := by
  intro home cmd f1 f2 fs saveOk
  refine ⟨rfl, rfl, ?_⟩
  intro p hp
  unfold main_run execute manager_init at hp
  rcases cmd with _ | c
  · simp at hp
  · cases c <;> simp only at hp <;> (try split_ifs at hp) <;> simp_all

/-- Claim C10: the read-only commands (list, search, tags, titles, stats —
everything except add and delete) leave the Collection unchanged and never
write the backing file. -/
theorem readonly_commands_no_mutation :
    ∀ (m : ManagerState) (cmd : Option Command) (saveOk : Bool),
      isMutation cmd = false →
      (execute m cmd saveOk).bookmarks = m.bookmarks ∧
      (execute m cmd saveOk).savedTo = none := by
  intro m cmd saveOk h
  rcases cmd with _ | c
  · exact ⟨rfl, rfl⟩
  · cases c <;> simp_all [execute, isMutation]

/-- Witness for C10: the tags command on a concrete one-record manager. -/
theorem readonly_commands_no_mutation_witness :
    (execute ⟨"f", [⟨"u", "t", "g"⟩]⟩ (some Command.tags) true).bookmarks =
      [⟨"u", "t", "g"⟩] ∧
    (execute ⟨"f", [⟨"u", "t", "g"⟩]⟩ (some Command.tags) true).savedTo = none :=
  readonly_commands_no_mutation ⟨"f", [⟨"u", "t", "g"⟩]⟩ (some Command.tags) true rfl

/-! ## Case-invariance of URL validation

`add_bookmark` checks duplicates with `url.lower()`, so the amended C3
quantifies the second add over urls equal to the first up to letter case.
The lemmas below show `validate_url` is invariant under such case changes:
characters equal after lower-casing are either identical or both ASCII
letters, and every character class inspected by the URL parser is closed
under letter-case changes. -/

theorem char_eq_iff_toNat {a c : Char} : a = c ↔ a.toNat = c.toNat :=
  ⟨fun h => h ▸ rfl, charToNat_inj⟩

theorem isAlphaA_iff (a : Char) : isAlphaA a = true ↔
    (65 ≤ a.toNat ∧ a.toNat ≤ 90) ∨ (97 ≤ a.toNat ∧ a.toNat ≤ 122) := by
  unfold isAlphaA isUpperA isLowerA
  simp

theorem lowerChar_cases (a : Char) :
    lowerChar a = a ∨
      (65 ≤ a.toNat ∧ a.toNat ≤ 90 ∧ (lowerChar a).toNat = a.toNat + 32) := by
  by_cases h1 : a = 'A'
  · subst h1
    right
    decide
  by_cases h2 : a = 'B'
  · subst h2
    right
    decide
  by_cases h3 : a = 'C'
  · subst h3
    right
    decide
  by_cases h4 : a = 'D'
  · subst h4
    right
    decide
  by_cases h5 : a = 'E'
  · subst h5
    right
    decide
  by_cases h6 : a = 'F'
  · subst h6
    right
    decide
  by_cases h7 : a = 'G'
  · subst h7
    right
    decide
  by_cases h8 : a = 'H'
  · subst h8
    right
    decide
  by_cases h9 : a = 'I'
  · subst h9
    right
    decide
  by_cases h10 : a = 'J'
  · subst h10
    right
    decide
  by_cases h11 : a = 'K'
  · subst h11
    right
    decide
  by_cases h12 : a = 'L'
  · subst h12
    right
    decide
  by_cases h13 : a = 'M'
  · subst h13
    right
    decide
  by_cases h14 : a = 'N'
  · subst h14
    right
    decide
  by_cases h15 : a = 'O'
  · subst h15
    right
    decide
  by_cases h16 : a = 'P'
  · subst h16
    right
    decide
  by_cases h17 : a = 'Q'
  · subst h17
    right
    decide
  by_cases h18 : a = 'R'
  · subst h18
    right
    decide
  by_cases h19 : a = 'S'
  · subst h19
    right
    decide
  by_cases h20 : a = 'T'
  · subst h20
    right
    decide
  by_cases h21 : a = 'U'
  · subst h21
    right
    decide
  by_cases h22 : a = 'V'
  · subst h22
    right
    decide
  by_cases h23 : a = 'W'
  · subst h23
    right
    decide
  by_cases h24 : a = 'X'
  · subst h24
    right
    decide
  by_cases h25 : a = 'Y'
  · subst h25
    right
    decide
  by_cases h26 : a = 'Z'
  · subst h26
    right
    decide
  left
  unfold lowerChar
  rw [if_neg h1, if_neg h2, if_neg h3, if_neg h4, if_neg h5, if_neg h6, if_neg h7, if_neg h8, if_neg h9, if_neg h10, if_neg h11, if_neg h12, if_neg h13, if_neg h14, if_neg h15, if_neg h16, if_neg h17, if_neg h18, if_neg h19, if_neg h20, if_neg h21, if_neg h22, if_neg h23, if_neg h24, if_neg h25, if_neg h26]

theorem sameLetter_cases {a b : Char} (h : lowerChar a = lowerChar b) :
    a = b ∨ (isAlphaA a = true ∧ isAlphaA b = true) := by
  rcases lowerChar_cases a with ha | ⟨ha1, ha2, ha3⟩ <;>
    rcases lowerChar_cases b with hb | ⟨hb1, hb2, hb3⟩
  · left
    rw [← ha, ← hb, h]
  · right
    have hab : a.toNat = b.toNat + 32 := by rw [← hb3, ← h, ha]
    rw [isAlphaA_iff, isAlphaA_iff]
    omega
  · right
    have hab : b.toNat = a.toNat + 32 := by rw [← ha3, h, hb]
    rw [isAlphaA_iff, isAlphaA_iff]
    omega
  · right
    rw [isAlphaA_iff, isAlphaA_iff]
    omega

theorem sameLetter_eq_char {a b c : Char} (h : lowerChar a = lowerChar b)
    (hc : isAlphaA c = false) : a = c ↔ b = c := by
  rcases sameLetter_cases h with rfl | ⟨ha, hb⟩
  · exact Iff.rfl
  · rw [isAlphaA_iff] at ha hb
    have hc2 : ¬((65 ≤ c.toNat ∧ c.toNat ≤ 90) ∨ (97 ≤ c.toNat ∧ c.toNat ≤ 122)) := by
      rw [← isAlphaA_iff, hc]
      simp
    simp only [char_eq_iff_toNat]
    omega

theorem sameLetter_beq_char {a b c : Char} (h : lowerChar a = lowerChar b)
    (hc : isAlphaA c = false) : (c == a) = (c == b) := by
  rw [Bool.eq_iff_iff]
  simp only [beq_iff_eq]
  constructor
  · intro h2
    exact ((@sameLetter_eq_char a b c h hc).mp h2.symm).symm
  · intro h2
    exact ((@sameLetter_eq_char a b c h hc).mpr h2.symm).symm

theorem sameLetter_isC0 {a b : Char} (h : lowerChar a = lowerChar b) :
    isC0OrSpace a = isC0OrSpace b := by
  rcases sameLetter_cases h with rfl | ⟨ha, hb⟩
  · rfl
  · unfold isC0OrSpace
    rw [isAlphaA_iff] at ha hb
    simp only [decide_eq_decide]
    omega

theorem sameLetter_isUnsafe {a b : Char} (h : lowerChar a = lowerChar b) :
    isUnsafeByte a = isUnsafeByte b := by
  unfold isUnsafeByte
  rw [Bool.eq_iff_iff]
  simp only [Bool.or_eq_true, decide_eq_true_eq]
  rw [@sameLetter_eq_char a b '\t' h (by decide), @sameLetter_eq_char a b '\r' h (by decide),
    @sameLetter_eq_char a b '\n' h (by decide)]

theorem sameLetter_isAlpha_eq {a b : Char} (h : lowerChar a = lowerChar b) :
    isAlphaA a = isAlphaA b := by
  rcases sameLetter_cases h with rfl | ⟨ha, hb⟩
  · rfl
  · rw [ha, hb]

theorem sameLetter_isScheme {a b : Char} (h : lowerChar a = lowerChar b) :
    isSchemeChar a = isSchemeChar b := by
  rcases sameLetter_cases h with rfl | ⟨ha, hb⟩
  · rfl
  · simp [isSchemeChar, ha, hb]

theorem sameLetter_netChar {a b : Char} (h : lowerChar a = lowerChar b) :
    (!(a = '/' || a = '?' || a = '#') : Bool) = !(b = '/' || b = '?' || b = '#') := by
  apply congrArg Bool.not
  rw [Bool.eq_iff_iff]
  simp only [Bool.or_eq_true, decide_eq_true_eq]
  rw [@sameLetter_eq_char a b '/' h (by decide), @sameLetter_eq_char a b '?' h (by decide),
    @sameLetter_eq_char a b '#' h (by decide)]

theorem map_lower_eq_iff : ∀ (l1 l2 : List Char),
    l1.map lowerChar = l2.map lowerChar ↔
      List.Forall₂ (fun a b => lowerChar a = lowerChar b) l1 l2 := by
  intro l1
  induction l1 with
  | nil =>
    intro l2
    cases l2 <;> simp
  | cons x xs ih =>
    intro l2
    cases l2 with
    | nil => simp
    | cons y ys => simp [List.forall₂_cons, ih]

theorem forall₂_dropWhile {R : Char → Char → Prop} {p : Char → Bool}
    (hp : ∀ a b, R a b → p a = p b) :
    ∀ {l1 l2 : List Char}, List.Forall₂ R l1 l2 →
      List.Forall₂ R (l1.dropWhile p) (l2.dropWhile p) := by
  intro l1 l2 h
  induction h with
  | nil => simp
  | cons hab htl ih =>
    rename_i a b as bs
    simp only [List.dropWhile]
    rw [hp a b hab]
    cases hpb : p b
    · simpa using List.Forall₂.cons hab htl
    · simpa using ih

theorem forall₂_filter {R : Char → Char → Prop} {p : Char → Bool}
    (hp : ∀ a b, R a b → p a = p b) :
    ∀ {l1 l2 : List Char}, List.Forall₂ R l1 l2 →
      List.Forall₂ R (l1.filter p) (l2.filter p) := by
  intro l1 l2 h
  induction h with
  | nil => simp
  | cons hab htl ih =>
    rename_i a b as bs
    simp only [List.filter]
    rw [hp a b hab]
    cases hpb : p b
    · simpa using ih
    · simpa using List.Forall₂.cons hab ih

theorem forall₂_takeWhile {R : Char → Char → Prop} {p : Char → Bool}
    (hp : ∀ a b, R a b → p a = p b) :
    ∀ {l1 l2 : List Char}, List.Forall₂ R l1 l2 →
      List.Forall₂ R (l1.takeWhile p) (l2.takeWhile p) := by
  intro l1 l2 h
  induction h with
  | nil => simp
  | cons hab htl ih =>
    rename_i a b as bs
    simp only [List.takeWhile]
    rw [hp a b hab]
    cases hpb : p b
    · simp
    · simpa using List.Forall₂.cons hab ih

theorem forall₂_findIdx {R : Char → Char → Prop} {p : Char → Bool}
    (hp : ∀ a b, R a b → p a = p b) :
    ∀ {l1 l2 : List Char}, List.Forall₂ R l1 l2 →
      l1.findIdx p = l2.findIdx p := by
  intro l1 l2 h
  induction h with
  | nil => rfl
  | cons hab htl ih =>
    rename_i a b as bs
    rw [List.findIdx_cons, List.findIdx_cons, hp a b hab, ih]

theorem forall₂_all {R : Char → Char → Prop} {p : Char → Bool}
    (hp : ∀ a b, R a b → p a = p b) :
    ∀ {l1 l2 : List Char}, List.Forall₂ R l1 l2 → l1.all p = l2.all p := by
  intro l1 l2 h
  induction h with
  | nil => rfl
  | cons hab htl ih =>
    rename_i a b as bs
    rw [List.all_cons, List.all_cons, hp a b hab, ih]

theorem forall₂_any {R : Char → Char → Prop} {p : Char → Bool}
    (hp : ∀ a b, R a b → p a = p b) :
    ∀ {l1 l2 : List Char}, List.Forall₂ R l1 l2 → l1.any p = l2.any p := by
  intro l1 l2 h
  induction h with
  | nil => rfl
  | cons hab htl ih =>
    rename_i a b as bs
    rw [List.any_cons, List.any_cons, hp a b hab, ih]

theorem forall₂_take {R : Char → Char → Prop} :
    ∀ (n : Nat) {l1 l2 : List Char}, List.Forall₂ R l1 l2 →
      List.Forall₂ R (l1.take n) (l2.take n) := by
  intro n l1 l2 h
  induction h generalizing n with
  | nil => simp
  | cons hab htl ih =>
    cases n with
    | zero => simp
    | succ m => simpa using List.Forall₂.cons hab (ih m)

theorem forall₂_drop {R : Char → Char → Prop} :
    ∀ (n : Nat) {l1 l2 : List Char}, List.Forall₂ R l1 l2 →
      List.Forall₂ R (l1.drop n) (l2.drop n) := by
  intro n l1 l2 h
  induction h generalizing n with
  | nil => simp
  | cons hab htl ih =>
    cases n with
    | zero => exact List.Forall₂.cons hab htl
    | succ m => simpa using ih m

theorem forall₂_contains {R : Char → Char → Prop} {c : Char}
    (hc : ∀ a b, R a b → (c == a) = (c == b)) :
    ∀ {l1 l2 : List Char}, List.Forall₂ R l1 l2 →
      l1.contains c = l2.contains c := by
  intro l1 l2 h
  induction h with
  | nil => rfl
  | cons hab htl ih =>
    rename_i a b as bs
    rw [List.contains_cons, List.contains_cons, hc a b hab, ih]

theorem forall₂_isEmpty {R : Char → Char → Prop} {l1 l2 : List Char}
    (h : List.Forall₂ R l1 l2) : l1.isEmpty = l2.isEmpty := by
  cases h <;> rfl

theorem isEmpty_eq_of_length_eq {l1 l2 : List Char} (h : l1.length = l2.length) :
    l1.isEmpty = l2.isEmpty := by
  cases l1 <;> cases l2 <;> simp_all

theorem forall₂_headD_alpha {l1 l2 : List Char}
    (h : List.Forall₂ (fun a b => lowerChar a = lowerChar b) l1 l2) :
    isAlphaA (l1.headD ' ') = isAlphaA (l2.headD ' ') := by
  cases h with
  | nil => rfl
  | cons hab htl => simpa using sameLetter_isAlpha_eq hab

theorem forall₂_netlocOf {l1 l2 : List Char}
    (h : List.Forall₂ (fun a b => lowerChar a = lowerChar b) l1 l2) :
    List.Forall₂ (fun a b => lowerChar a = lowerChar b) (netlocOf l1) (netlocOf l2) := by
  unfold netlocOf
  split
  · cases h with
    | cons hab htl =>
      rename_i b bs
      cases htl with
      | cons hcd httl =>
        rename_i d ds
        have hb : b = '/' := (@sameLetter_eq_char '/' b '/' hab (by decide)).mp rfl
        have hd : d = '/' := (@sameLetter_eq_char '/' d '/' hcd (by decide)).mp rfl
        subst hb
        subst hd
        exact forall₂_takeWhile (fun a b hab2 => sameLetter_netChar hab2) httl
  · rename_i hne
    split
    · exfalso
      cases h with
      | cons hab htl =>
        rename_i a as
        have ha : a = '/' := (@sameLetter_eq_char a '/' '/' hab (by decide)).mpr rfl
        subst ha
        cases htl with
        | cons hcd httl =>
          rename_i c cs
          have hc : c = '/' := (@sameLetter_eq_char c '/' '/' hcd (by decide)).mpr rfl
          subst hc
          exact hne cs rfl
    · exact List.Forall₂.nil

theorem forall₂_splitScheme {l1 l2 : List Char}
    (h : List.Forall₂ (fun a b => lowerChar a = lowerChar b) l1 l2) :
    (splitScheme l1).1.isEmpty = (splitScheme l2).1.isEmpty ∧
    List.Forall₂ (fun a b => lowerChar a = lowerChar b)
      (splitScheme l1).2 (splitScheme l2).2 := by
  have hidx : l1.findIdx (· = ':') = l2.findIdx (· = ':') :=
    forall₂_findIdx (fun a b hab => by
      simp only [decide_eq_decide]
      exact @sameLetter_eq_char a b ':' hab (by decide)) h
  have hlen : l1.length = l2.length := h.length_eq
  have hall : (l1.take (l2.findIdx (· = ':'))).all isSchemeChar =
      (l2.take (l2.findIdx (· = ':'))).all isSchemeChar :=
    forall₂_all (fun a b hab => sameLetter_isScheme hab) (forall₂_take _ h)
  have hhead := forall₂_headD_alpha h
  simp only [splitScheme]
  rw [hidx, hlen, hall, hhead]
  by_cases hc : 0 < l2.findIdx (· = ':') ∧ l2.findIdx (· = ':') < l2.length ∧
      ((l2.take (l2.findIdx (· = ':'))).all isSchemeChar = true) ∧
      (isAlphaA (l2.headD ' ') = true)
  · rw [if_pos hc, if_pos hc]
    constructor
    · apply isEmpty_eq_of_length_eq
      simp [hlen]
    · exact forall₂_drop _ h
  · rw [if_neg hc, if_neg hc]
    exact ⟨rfl, h⟩

theorem validate_url_respects_case {u v : String} (h : lower u = lower v) :
    validate_url u = validate_url v := by
  have hdata : u.data.map lowerChar = v.data.map lowerChar := congrArg String.data h
  have hf : List.Forall₂ (fun a b => lowerChar a = lowerChar b) u.data v.data :=
    (map_lower_eq_iff _ _).mp hdata
  have hclean : List.Forall₂ (fun a b => lowerChar a = lowerChar b)
      (urlClean u.data) (urlClean v.data) :=
    forall₂_filter (fun a b hab => congrArg Bool.not (sameLetter_isUnsafe hab))
      (forall₂_dropWhile (fun a b hab => sameLetter_isC0 hab) hf)
  have hss := forall₂_splitScheme hclean
  have hnet := forall₂_netlocOf hss.2
  have hbra : (netlocOf (splitScheme (urlClean u.data)).2).contains '[' =
      (netlocOf (splitScheme (urlClean v.data)).2).contains '[' :=
    forall₂_contains (fun a b hab => sameLetter_beq_char hab (by decide)) hnet
  have hbrb : (netlocOf (splitScheme (urlClean u.data)).2).contains ']' =
      (netlocOf (splitScheme (urlClean v.data)).2).contains ']' :=
    forall₂_contains (fun a b hab => sameLetter_beq_char hab (by decide)) hnet
  have hne := forall₂_isEmpty hnet
  simp only [validate_url]
  rw [hbra, hbrb, hne, hss.1]

/-- Claim C1 is violated by the code: `add_bookmark` checks duplicates
against the untrimmed input url but stores the trimmed url, so after adding
`"http://a.com"`, adding `"http://a.com "` (trailing space) also succeeds
and the Collection ends with two records whose urls are identical — the
case-insensitive url-uniqueness invariant does not survive adds whose url
carries surrounding whitespace. -/
theorem add_untrimmed_url_breaks_uniqueness :
    add_bookmark [] "http://a.com" "t" "g" true =
      (AddResult.ok, [⟨"http://a.com", "t", "g"⟩]) ∧
    add_bookmark [⟨"http://a.com", "t", "g"⟩] "http://a.com " "t" "g" true =
      (AddResult.ok, [⟨"http://a.com", "t", "g"⟩, ⟨"http://a.com", "t", "g"⟩]) ∧
    ¬ urlsNodupCI [⟨"http://a.com", "t", "g"⟩, ⟨"http://a.com", "t", "g"⟩] := by
  decide

/-- Counterexample to C3 as stated: the url `"http://a.com "` (trailing
space) has a non-empty scheme and netloc and non-empty title/tag, the first
add succeeds and stores the trimmed values, but a second add of the very
same url triple is not rejected — the duplicate check compares the untrimmed
input against the stored trimmed url — and it changes the Collection. -/
theorem add_duplicate_whitespace_counterexample :
    validate_url "http://a.com " = true ∧
    add_bookmark [] "http://a.com " "T" "g" true =
      (AddResult.ok, [⟨"http://a.com", "T", "g"⟩]) ∧
    (add_bookmark [⟨"http://a.com", "T", "g"⟩] "http://a.com " "T" "g" true).1 ≠
      AddResult.duplicateUrl ∧
    (add_bookmark [⟨"http://a.com", "T", "g"⟩] "http://a.com " "T" "g" true).2 ≠
      [⟨"http://a.com", "T", "g"⟩] := by
  decide

/-- Claim C3 (amended: the url must equal its trimmed form, since the
duplicate check runs on the untrimmed input while the stored url is
trimmed): for a valid url and non-empty trimmed title and tag, adding to an
empty Collection succeeds and an unfiltered list shows exactly that one
record with the trimmed field values; any further add whose url equals the
first up to letter case is rejected — with `DuplicateUrl` — and leaves the
Collection unchanged, whatever its other arguments. -/
theorem add_then_duplicate_rejected :
    ∀ (url title tag : String),
      validate_url url = true → strip url = url →
      strip title ≠ "" → strip tag ≠ "" →
      (add_bookmark [] url title tag true =
          (AddResult.ok, [⟨url, strip title, strip tag⟩]) ∧
        list_bookmarks [⟨url, strip title, strip tag⟩] none none =
          [⟨url, strip title, strip tag⟩]) ∧
      ∀ (url2 title2 tag2 : String) (saveOk : Bool),
        lower url2 = lower url →
        add_bookmark [⟨url, strip title, strip tag⟩] url2 title2 tag2 saveOk =
          (AddResult.duplicateUrl, [⟨url, strip title, strip tag⟩]) := by
  intro url title tag hv hs ht hg
  constructor
  · constructor
    · unfold add_bookmark
      rw [hv]
      simp only [Bool.not_true, Bool.false_eq_true, if_false]
      rw [if_neg (by simp [find_bookmark_by_url]), if_neg ht, if_neg hg]
      simp [hs]
    · rfl
  · intro url2 title2 tag2 saveOk h2
    have hv2 : validate_url url2 = true := by
      rw [validate_url_respects_case h2]
      exact hv
    have hfind : find_bookmark_by_url [⟨url, strip title, strip tag⟩] url2 = some 0 := by
      unfold find_bookmark_by_url
      rw [List.findIdx?_cons]
      rw [if_pos (by simp [hs, h2])]
    unfold add_bookmark
    rw [hv2]
    simp only [Bool.not_true, Bool.false_eq_true, if_false, hfind]
    simp

/-- Witness for C3: a concrete valid trimmed url, a second add with the
upper-cased url is rejected as a duplicate. -/
theorem add_then_duplicate_rejected_witness :
    add_bookmark [] "http://a.com" " T " "g" true =
      (AddResult.ok, [⟨"http://a.com", "T", "g"⟩]) ∧
    add_bookmark [⟨"http://a.com", "T", "g"⟩] "HTTP://A.COM" "x" "y" false =
      (AddResult.duplicateUrl, [⟨"http://a.com", "T", "g"⟩]) := by
  have h := add_then_duplicate_rejected "http://a.com" " T " "g"
    (by decide) (by decide) (by decide) (by decide)
  constructor
  · exact h.1.1.trans (by decide)
  · exact (h.2 "HTTP://A.COM" "x" "y" false (by decide)).trans (by decide)

/-! ## Round trip of the JSON layer -/

theorem mk_data (s : String) : String.mk s.data = s := by
  cases s
  rfl

theorem hexVal_hexDig (n : Nat) (h : n < 16) : hexVal (hexDig n) = some n := by
  interval_cases n <;> decide

theorem scanString_quote (rest : List Char) :
    scanString ('"' :: rest) = some ([], rest) := by
  conv_lhs => rw [scanString.eq_def]
  rfl

theorem scanString_esc_quote (X : List Char) :
    scanString ('\\' :: '"' :: X) = (scanString X).map fun p => ('"' :: p.1, p.2) := by
  conv_lhs => rw [scanString.eq_def]
  rfl

theorem scanString_esc_back (X : List Char) :
    scanString ('\\' :: '\\' :: X) = (scanString X).map fun p => ('\\' :: p.1, p.2) := by
  conv_lhs => rw [scanString.eq_def]
  rfl

theorem scanString_esc_b (X : List Char) :
    scanString ('\\' :: 'b' :: X) = (scanString X).map fun p => (Char.ofNat 8 :: p.1, p.2) := by
  conv_lhs => rw [scanString.eq_def]
  rfl

theorem scanString_esc_f (X : List Char) :
    scanString ('\\' :: 'f' :: X) = (scanString X).map fun p => (Char.ofNat 12 :: p.1, p.2) := by
  conv_lhs => rw [scanString.eq_def]
  rfl

theorem scanString_esc_n (X : List Char) :
    scanString ('\\' :: 'n' :: X) = (scanString X).map fun p => ('\n' :: p.1, p.2) := by
  conv_lhs => rw [scanString.eq_def]
  rfl

theorem scanString_esc_r (X : List Char) :
    scanString ('\\' :: 'r' :: X) = (scanString X).map fun p => (Char.ofNat 13 :: p.1, p.2) := by
  conv_lhs => rw [scanString.eq_def]
  rfl

theorem scanString_esc_t (X : List Char) :
    scanString ('\\' :: 't' :: X) = (scanString X).map fun p => ('\t' :: p.1, p.2) := by
  conv_lhs => rw [scanString.eq_def]
  rfl

theorem scanString_esc_u (d1 d2 : Char) (X : List Char) :
    scanString ('\\' :: 'u' :: '0' :: '0' :: d1 :: d2 :: X) =
      (match hexVal '0', hexVal '0', hexVal d1, hexVal d2 with
       | some a, some b, some c2, some d =>
         (scanString X).map fun p => (Char.ofNat (4096 * a + 256 * b + 16 * c2 + d) :: p.1, p.2)
       | _, _, _, _ => none) := by
  conv_lhs => rw [scanString.eq_def]
  rfl

theorem scanString_plain (c : Char) (X : List Char) (h1 : ¬c = '"') (h2 : ¬c = '\\')
    (h3 : ¬c.toNat < 32) :
    scanString (c :: X) = (scanString X).map fun p => (c :: p.1, p.2) := by
  conv_lhs => rw [scanString.eq_def]
  simp only [if_neg h1, if_neg h2, if_neg h3]

theorem scanString_enc : ∀ (cs rest : List Char),
    scanString (encStr cs ++ '"' :: rest) = some (cs, rest) := by
  intro cs
  induction cs with
  | nil =>
    intro rest
    rw [show encStr [] ++ '"' :: rest = '"' :: rest from rfl, scanString_quote]
  | cons c cs ih =>
    intro rest
    rw [show encStr (c :: cs) ++ '"' :: rest = encChar c ++ (encStr cs ++ '"' :: rest) from by
      simp [encStr]]
    unfold encChar
    by_cases h1 : c = '"'
    · subst h1
      rw [if_pos rfl]
      rw [show (['\\', '"'] : List Char) ++ (encStr cs ++ '"' :: rest) =
        '\\' :: '"' :: (encStr cs ++ '"' :: rest) from rfl]
      rw [scanString_esc_quote, ih]
      rfl
    rw [if_neg h1]
    by_cases h2 : c = '\\'
    · subst h2
      rw [if_pos rfl]
      rw [show (['\\', '\\'] : List Char) ++ (encStr cs ++ '"' :: rest) =
        '\\' :: '\\' :: (encStr cs ++ '"' :: rest) from rfl]
      rw [scanString_esc_back, ih]
      rfl
    rw [if_neg h2]
    by_cases h3 : c.toNat = 8
    · rw [if_pos h3]
      rw [show (['\\', 'b'] : List Char) ++ (encStr cs ++ '"' :: rest) =
        '\\' :: 'b' :: (encStr cs ++ '"' :: rest) from rfl]
      rw [scanString_esc_b, ih]
      rw [show Char.ofNat 8 = Char.ofNat c.toNat from by rw [h3], Char.ofNat_toNat]
      rfl
    rw [if_neg h3]
    by_cases h4 : c.toNat = 12
    · rw [if_pos h4]
      rw [show (['\\', 'f'] : List Char) ++ (encStr cs ++ '"' :: rest) =
        '\\' :: 'f' :: (encStr cs ++ '"' :: rest) from rfl]
      rw [scanString_esc_f, ih]
      rw [show Char.ofNat 12 = Char.ofNat c.toNat from by rw [h4], Char.ofNat_toNat]
      rfl
    rw [if_neg h4]
    by_cases h5 : c = '\n'
    · subst h5
      rw [if_pos rfl]
      rw [show (['\\', 'n'] : List Char) ++ (encStr cs ++ '"' :: rest) =
        '\\' :: 'n' :: (encStr cs ++ '"' :: rest) from rfl]
      rw [scanString_esc_n, ih]
      rfl
    rw [if_neg h5]
    by_cases h6 : c.toNat = 13
    · rw [if_pos h6]
      rw [show (['\\', 'r'] : List Char) ++ (encStr cs ++ '"' :: rest) =
        '\\' :: 'r' :: (encStr cs ++ '"' :: rest) from rfl]
      rw [scanString_esc_r, ih]
      rw [show Char.ofNat 13 = Char.ofNat c.toNat from by rw [h6], Char.ofNat_toNat]
      rfl
    rw [if_neg h6]
    by_cases h7 : c = '\t'
    · subst h7
      rw [if_pos rfl]
      rw [show (['\\', 't'] : List Char) ++ (encStr cs ++ '"' :: rest) =
        '\\' :: 't' :: (encStr cs ++ '"' :: rest) from rfl]
      rw [scanString_esc_t, ih]
      rfl
    rw [if_neg h7]
    by_cases h8 : c.toNat < 32
    · rw [if_pos h8]
      rw [show (['\\', 'u', '0', '0', hexDig (c.toNat / 16), hexDig (c.toNat % 16)] : List Char) ++
          (encStr cs ++ '"' :: rest) =
        '\\' :: 'u' :: '0' :: '0' :: hexDig (c.toNat / 16) :: hexDig (c.toNat % 16) ::
          (encStr cs ++ '"' :: rest) from rfl]
      rw [scanString_esc_u]
      rw [hexVal_hexDig (c.toNat / 16) (by omega), hexVal_hexDig (c.toNat % 16) (by omega)]
      rw [show hexVal '0' = some 0 from rfl]
      simp only []
      rw [ih]
      rw [show 4096 * 0 + 256 * 0 + 16 * (c.toNat / 16) + c.toNat % 16 = c.toNat from by omega,
        Char.ofNat_toNat]
      rfl
    rw [if_neg h8]
    rw [show ([c] : List Char) ++ (encStr cs ++ '"' :: rest) =
      c :: (encStr cs ++ '"' :: rest) from rfl]
    rw [scanString_plain c _ h1 h2 h8, ih]
    rfl

theorem scanString_plainKey {k : List Char} (hk : encStr k = k) (rest : List Char) :
    scanString (k ++ '"' :: rest) = some (k, rest) := by
  have h := scanString_enc k rest
  rwa [hk] at h

theorem parseString_enc (cs rest : List Char) :
    parseString ('"' :: (encStr cs ++ '"' :: rest)) = some (⟨cs⟩, rest) := by
  rw [show parseString ('"' :: (encStr cs ++ '"' :: rest)) =
    (scanString (encStr cs ++ '"' :: rest)).map (fun p => (⟨p.1⟩, p.2)) from rfl]
  rw [scanString_enc]
  rfl

theorem parseString_key (k : List Char) (hk : encStr k = k) (rest : List Char) :
    parseString ('"' :: (k ++ '"' :: rest)) = some (⟨k⟩, rest) := by
  rw [show parseString ('"' :: (k ++ '"' :: rest)) =
    (scanString (k ++ '"' :: rest)).map (fun p => (⟨p.1⟩, p.2)) from rfl]
  rw [scanString_plainKey hk]
  rfl

theorem parseField_fmt (key : String) (hk : encStr key.data = key.data)
    (cs rest : List Char) :
    parseField key ('\n' :: ' ' :: ' ' :: ' ' :: ' ' :: '"' ::
      (key.data ++ '"' :: ':' :: ' ' :: '"' :: (encStr cs ++ '"' :: rest))) =
      some (⟨cs⟩, rest) := by
  rw [show parseField key ('\n' :: ' ' :: ' ' :: ' ' :: ' ' :: '"' ::
      (key.data ++ '"' :: ':' :: ' ' :: '"' :: (encStr cs ++ '"' :: rest))) =
    (parseString ('"' :: (key.data ++ '"' :: ':' :: ' ' :: '"' ::
        (encStr cs ++ '"' :: rest)))).bind
      (fun p1 => if p1.1 = key then
          (expectChar ':' (skipWs p1.2)).bind (fun s2 => parseString (skipWs s2))
        else none) from rfl]
  rw [parseString_key key.data hk]
  simp only [Option.some_bind]
  rw [mk_data]
  rw [if_pos trivial]
  rw [show expectChar ':' (skipWs (':' :: ' ' :: '"' :: (encStr cs ++ '"' :: rest))) =
    some (' ' :: '"' :: (encStr cs ++ '"' :: rest)) from rfl]
  simp only [Option.some_bind]
  rw [show skipWs (' ' :: '"' :: (encStr cs ++ '"' :: rest)) =
    '"' :: (encStr cs ++ '"' :: rest) from rfl]
  rw [parseString_enc]

theorem encRecord_append (u t g : String) (rest : List Char) :
    encRecord ⟨u, t, g⟩ ++ rest =
      ' ' :: ' ' :: '{' ::
      '\n' :: ' ' :: ' ' :: ' ' :: ' ' :: '"' ::
      ("url".data ++ '"' :: ':' :: ' ' :: '"' :: (encStr u.data ++ '"' ::
       ',' :: '\n' :: ' ' :: ' ' :: ' ' :: ' ' :: '"' ::
      ("title".data ++ '"' :: ':' :: ' ' :: '"' :: (encStr t.data ++ '"' ::
       ',' :: '\n' :: ' ' :: ' ' :: ' ' :: ' ' :: '"' ::
      ("tag".data ++ '"' :: ':' :: ' ' :: '"' :: (encStr g.data ++ '"' ::
       '\n' :: ' ' :: ' ' :: '}' :: rest)))))) := by
  have h1 : ("  \x7b\n    \"url\": \"" : String).data =
    [' ', ' ', '{', '\n', ' ', ' ', ' ', ' ', '"', 'u', 'r', 'l', '"', ':', ' ', '"'] := rfl
  have h2 : ("\",\n    \"title\": \"" : String).data =
    ['"', ',', '\n', ' ', ' ', ' ', ' ', '"', 't', 'i', 't', 'l', 'e', '"', ':', ' ', '"'] := rfl
  have h3 : ("\",\n    \"tag\": \"" : String).data =
    ['"', ',', '\n', ' ', ' ', ' ', ' ', '"', 't', 'a', 'g', '"', ':', ' ', '"'] := rfl
  have h4 : ("\"\n  \x7d" : String).data = ['"', '\n', ' ', ' ', '}'] := rfl
  have h5 : ("url" : String).data = ['u', 'r', 'l'] := rfl
  have h6 : ("title" : String).data = ['t', 'i', 't', 'l', 'e'] := rfl
  have h7 : ("tag" : String).data = ['t', 'a', 'g'] := rfl
  simp only [encRecord, h1, h2, h3, h4, h5, h6, h7, List.cons_append, List.nil_append,
    List.append_assoc]

theorem parseRecord_nl (u t g : String) (rest : List Char) :
    parseRecord ('\n' :: (encRecord ⟨u, t, g⟩ ++ rest)) = some (⟨u, t, g⟩, rest) := by
  rw [encRecord_append]
  rw [show parseRecord ('\n' :: ' ' :: ' ' :: '{' ::
      '\n' :: ' ' :: ' ' :: ' ' :: ' ' :: '"' ::
      ("url".data ++ '"' :: ':' :: ' ' :: '"' :: (encStr u.data ++ '"' ::
       ',' :: '\n' :: ' ' :: ' ' :: ' ' :: ' ' :: '"' ::
      ("title".data ++ '"' :: ':' :: ' ' :: '"' :: (encStr t.data ++ '"' ::
       ',' :: '\n' :: ' ' :: ' ' :: ' ' :: ' ' :: '"' ::
      ("tag".data ++ '"' :: ':' :: ' ' :: '"' :: (encStr g.data ++ '"' ::
       '\n' :: ' ' :: ' ' :: '}' :: rest))))))) =
    (parseField "url" ('\n' :: ' ' :: ' ' :: ' ' :: ' ' :: '"' ::
      ("url".data ++ '"' :: ':' :: ' ' :: '"' :: (encStr u.data ++ '"' ::
       ',' :: '\n' :: ' ' :: ' ' :: ' ' :: ' ' :: '"' ::
      ("title".data ++ '"' :: ':' :: ' ' :: '"' :: (encStr t.data ++ '"' ::
       ',' :: '\n' :: ' ' :: ' ' :: ' ' :: ' ' :: '"' ::
      ("tag".data ++ '"' :: ':' :: ' ' :: '"' :: (encStr g.data ++ '"' ::
       '\n' :: ' ' :: ' ' :: '}' :: rest)))))))).bind (fun pu =>
      (expectChar ',' (skipWs pu.2)).bind (fun s3 =>
        (parseField "title" s3).bind (fun pt =>
          (expectChar ',' (skipWs pt.2)).bind (fun s5 =>
            (parseField "tag" s5).bind (fun pg =>
              (expectChar '}' (skipWs pg.2)).bind (fun s7 =>
                some (⟨pu.1, pt.1, pg.1⟩, s7))))))) from rfl]
  rw [parseField_fmt "url" (by decide) u.data
    (',' :: '\n' :: ' ' :: ' ' :: ' ' :: ' ' :: '"' ::
      ("title".data ++ '"' :: ':' :: ' ' :: '"' :: (encStr t.data ++ '"' ::
       ',' :: '\n' :: ' ' :: ' ' :: ' ' :: ' ' :: '"' ::
      ("tag".data ++ '"' :: ':' :: ' ' :: '"' :: (encStr g.data ++ '"' ::
       '\n' :: ' ' :: ' ' :: '}' :: rest)))))]
  simp only [Option.some_bind]
  rw [show expectChar ','
      (skipWs (',' :: '\n' :: ' ' :: ' ' :: ' ' :: ' ' :: '"' ::
        ("title".data ++ '"' :: ':' :: ' ' :: '"' :: (encStr t.data ++ '"' ::
         ',' :: '\n' :: ' ' :: ' ' :: ' ' :: ' ' :: '"' ::
        ("tag".data ++ '"' :: ':' :: ' ' :: '"' :: (encStr g.data ++ '"' ::
         '\n' :: ' ' :: ' ' :: '}' :: rest)))))) =
    some ('\n' :: ' ' :: ' ' :: ' ' :: ' ' :: '"' ::
      ("title".data ++ '"' :: ':' :: ' ' :: '"' :: (encStr t.data ++ '"' ::
       ',' :: '\n' :: ' ' :: ' ' :: ' ' :: ' ' :: '"' ::
      ("tag".data ++ '"' :: ':' :: ' ' :: '"' :: (encStr g.data ++ '"' ::
       '\n' :: ' ' :: ' ' :: '}' :: rest))))) from rfl]
  simp only [Option.some_bind]
  rw [parseField_fmt "title" (by decide) t.data
    (',' :: '\n' :: ' ' :: ' ' :: ' ' :: ' ' :: '"' ::
      ("tag".data ++ '"' :: ':' :: ' ' :: '"' :: (encStr g.data ++ '"' ::
       '\n' :: ' ' :: ' ' :: '}' :: rest)))]
  simp only [Option.some_bind]
  rw [show expectChar ','
      (skipWs (',' :: '\n' :: ' ' :: ' ' :: ' ' :: ' ' :: '"' ::
        ("tag".data ++ '"' :: ':' :: ' ' :: '"' :: (encStr g.data ++ '"' ::
         '\n' :: ' ' :: ' ' :: '}' :: rest)))) =
    some ('\n' :: ' ' :: ' ' :: ' ' :: ' ' :: '"' ::
      ("tag".data ++ '"' :: ':' :: ' ' :: '"' :: (encStr g.data ++ '"' ::
       '\n' :: ' ' :: ' ' :: '}' :: rest))) from rfl]
  simp only [Option.some_bind]
  rw [parseField_fmt "tag" (by decide) g.data ('\n' :: ' ' :: ' ' :: '}' :: rest)]
  simp only [Option.some_bind]
  rw [show expectChar '}' (skipWs ('\n' :: ' ' :: ' ' :: '}' :: rest)) = some rest from rfl]
  simp only [Option.some_bind]

set_option maxHeartbeats 1000000 in
theorem parseRecords_enc :
    ∀ (bs : List Bookmark) (fuel : Nat), bs ≠ [] → bs.length ≤ fuel →
      ∀ (tail : List Char),
        parseRecords fuel
          ('\n' :: (joinSep (',' :: '\n' :: []) (bs.map encRecord) ++ '\n' :: ']' :: tail)) =
          some (bs, tail) := by
  intro bs
  induction bs with
  | nil =>
    intro fuel h
    exact absurd rfl h
  | cons b0 bs' ih =>
    intro fuel hne hlen tail
    cases fuel with
    | zero => simp at hlen
    | succ f =>
      cases bs' with
      | nil =>
        obtain ⟨u, t, g⟩ := b0
        rw [show joinSep (',' :: '\n' :: []) ([(⟨u, t, g⟩ : Bookmark)].map encRecord) =
          encRecord ⟨u, t, g⟩ from by simp [joinSep]]
        rw [show parseRecords (f + 1)
            ('\n' :: (encRecord ⟨u, t, g⟩ ++ '\n' :: ']' :: tail)) =
          (parseRecord ('\n' :: (encRecord ⟨u, t, g⟩ ++ '\n' :: ']' :: tail))).bind (fun pb =>
            match skipWs pb.2 with
            | ',' :: s2 => (parseRecords f s2).map fun p => (pb.1 :: p.1, p.2)
            | ']' :: s2 => some ([pb.1], s2)
            | _ => none) from rfl]
        rw [parseRecord_nl u t g ('\n' :: ']' :: tail)]
        simp only [Option.some_bind]
        rw [show skipWs ('\n' :: ']' :: tail) = ']' :: tail from rfl]
        rfl
      | cons b1 bs'' =>
        obtain ⟨u, t, g⟩ := b0
        rw [show joinSep (',' :: '\n' :: []) (((⟨u, t, g⟩ : Bookmark) :: b1 :: bs'').map encRecord) =
          encRecord ⟨u, t, g⟩ ++ (',' :: '\n' ::
            joinSep (',' :: '\n' :: []) ((b1 :: bs'').map encRecord)) from by simp [joinSep]]
        rw [List.append_assoc, List.cons_append, List.cons_append]
        rw [show parseRecords (f + 1)
            ('\n' :: (encRecord ⟨u, t, g⟩ ++ ',' :: '\n' ::
              (joinSep (',' :: '\n' :: []) ((b1 :: bs'').map encRecord) ++ '\n' :: ']' :: tail))) =
          (parseRecord ('\n' :: (encRecord ⟨u, t, g⟩ ++ ',' :: '\n' ::
              (joinSep (',' :: '\n' :: []) ((b1 :: bs'').map encRecord) ++ '\n' :: ']' :: tail)))).bind
            (fun pb => match skipWs pb.2 with
              | ',' :: s2 => (parseRecords f s2).map fun p => (pb.1 :: p.1, p.2)
              | ']' :: s2 => some ([pb.1], s2)
              | _ => none) from rfl]
        rw [parseRecord_nl u t g (',' :: '\n' ::
            (joinSep (',' :: '\n' :: []) ((b1 :: bs'').map encRecord) ++ '\n' :: ']' :: tail))]
        simp only [Option.some_bind]
        rw [show skipWs (',' :: '\n' ::
            (joinSep (',' :: '\n' :: []) ((b1 :: bs'').map encRecord) ++ '\n' :: ']' :: tail)) =
          ',' :: '\n' ::
            (joinSep (',' :: '\n' :: []) ((b1 :: bs'').map encRecord) ++ '\n' :: ']' :: tail)
          from rfl]
        have hlen2 : (b1 :: bs'').length ≤ f := by
          simp only [List.length_cons] at hlen ⊢
          omega
        rw [show (match (',' :: '\n' ::
            (joinSep (',' :: '\n' :: []) ((b1 :: bs'').map encRecord) ++ '\n' :: ']' :: tail) :
              List Char) with
            | ',' :: s2 => (parseRecords f s2).map
                fun p => ((⟨u, t, g⟩ : Bookmark) :: p.1, p.2)
            | ']' :: s2 => some ([(⟨u, t, g⟩ : Bookmark)], s2)
            | _ => none) =
          (parseRecords f
            ('\n' :: (joinSep (',' :: '\n' :: []) ((b1 :: bs'').map encRecord) ++
              '\n' :: ']' :: tail))).map
              (fun p => ((⟨u, t, g⟩ : Bookmark) :: p.1, p.2)) from rfl]
        rw [ih f (by simp) hlen2 tail]
        rfl

theorem encRecord_len (b : Bookmark) : 16 ≤ (encRecord b).length := by
  obtain ⟨u, t, g⟩ := b
  simp [encRecord]

theorem joinSep_len : ∀ (bs : List Bookmark),
    bs.length ≤ (joinSep (',' :: '\n' :: []) (bs.map encRecord)).length + 1 := by
  intro bs
  induction bs with
  | nil => simp
  | cons b0 bs' ih =>
    cases bs' with
    | nil =>
      have h := encRecord_len b0
      simp only [List.map_cons, List.map_nil, joinSep, List.length_cons, List.length_nil]
      omega
    | cons b1 bs'' =>
      have h := encRecord_len b0
      rw [show joinSep (',' :: '\n' :: []) ((b0 :: b1 :: bs'').map encRecord) =
        encRecord b0 ++ (',' :: '\n' :: joinSep (',' :: '\n' :: []) ((b1 :: bs'').map encRecord)) from by
          simp [joinSep]]
      simp only [List.length_cons, List.length_append] at ih ⊢
      omega

theorem joinSep_head (b0 : Bookmark) (bs' : List Bookmark) :
    ∃ Z, joinSep (',' :: '\n' :: []) ((b0 :: bs').map encRecord) =
      ' ' :: ' ' :: '{' :: Z := by
  cases bs' with
  | nil =>
    obtain ⟨u, t, g⟩ := b0
    exact ⟨_, rfl⟩
  | cons b1 bs'' =>
    obtain ⟨u, t, g⟩ := b0
    exact ⟨_, rfl⟩

set_option maxHeartbeats 1000000 in
theorem load_dump (bs : List Bookmark) : load (dump bs) = some bs := by
  cases bs with
  | nil => decide
  | cons b0 bs' =>
    rw [show load (dump (b0 :: bs')) =
      (match skipWs ('\n' ::
          (joinSep (',' :: '\n' :: []) ((b0 :: bs').map encRecord) ++
            '\n' :: ']' :: ([] : List Char))) with
       | ']' :: tail => if skipWs tail = [] then some [] else none
       | _ =>
         (parseRecords
            (('\n' :: (joinSep (',' :: '\n' :: []) ((b0 :: bs').map encRecord) ++
              '\n' :: ']' :: ([] : List Char))).length + 1)
            ('\n' :: (joinSep (',' :: '\n' :: []) ((b0 :: bs').map encRecord) ++
              '\n' :: ']' :: ([] : List Char)))).bind
           (fun pr => if skipWs pr.2 = [] then some pr.1 else none)) from rfl]
    obtain ⟨Z, hZ⟩ := joinSep_head b0 bs'
    rw [show skipWs ('\n' ::
        (joinSep (',' :: '\n' :: []) ((b0 :: bs').map encRecord) ++
          '\n' :: ']' :: ([] : List Char))) =
      '{' :: (Z ++ '\n' :: ']' :: ([] : List Char)) from by
        rw [hZ]
        rfl]
    rw [show (match ('{' :: (Z ++ '\n' :: ']' :: ([] : List Char)) : List Char) with
       | ']' :: tail => if skipWs tail = [] then some [] else none
       | _ =>
         (parseRecords
            (('\n' :: (joinSep (',' :: '\n' :: []) ((b0 :: bs').map encRecord) ++
              '\n' :: ']' :: ([] : List Char))).length + 1)
            ('\n' :: (joinSep (',' :: '\n' :: []) ((b0 :: bs').map encRecord) ++
              '\n' :: ']' :: ([] : List Char)))).bind
           (fun pr => if skipWs pr.2 = [] then some pr.1 else none)) =
      (parseRecords
         (('\n' :: (joinSep (',' :: '\n' :: []) ((b0 :: bs').map encRecord) ++
           '\n' :: ']' :: ([] : List Char))).length + 1)
         ('\n' :: (joinSep (',' :: '\n' :: []) ((b0 :: bs').map encRecord) ++
           '\n' :: ']' :: ([] : List Char)))).bind
        (fun pr => if skipWs pr.2 = [] then some pr.1 else none) from rfl]
    rw [parseRecords_enc (b0 :: bs') _ (by simp) (by
      have h := joinSep_len (b0 :: bs')
      simp only [List.length_cons, List.length_append, List.length_nil] at h ⊢
      omega) []]
    simp only [Option.some_bind]
    rfl

/-- Claim C7: saving a Collection with `_save_bookmarks` (the exact
`json.dump(..., indent=2, ensure_ascii=False)` text) and loading it back
with `json.load` yields the identical Collection — the same records with
the same field values in the same order, for arbitrary string contents. -/
theorem save_load_round_trip :
    ∀ bs : List Bookmark,
      load (dump bs) = some bs ∧ load_bookmarks (some (dump bs)) = bs := by
  intro bs
  constructor
  · exact load_dump bs
  · show (load (dump bs)).getD [] = bs
    rw [load_dump]
    rfl

end BookmarkStash
